import Mathlib

/-!
# Verification of the SML frame reader, field decoder and meter state tracker

Shallow embedding of `src/sml_to_mqtt.py` (class `SmlClient`).

The serial byte stream is modelled as a finite `List Nat` of bytes: the end of
the list plays the role of a read timeout, after which `read_until` returns all
bytes consumed so far and `read n` returns fewer than `n` bytes.  Machine bytes
are `Nat` values below 256; Python `int` values are `Int`; timestamps
(`time.time()` floats compared with `-` and `>`) are rationals.
-/

namespace SmlToMqtt

/-- Constant `SmlClient.START_MESSAGE`, the four bytes 01 01 01 01. -/
def START_MESSAGE : List Nat := [0x01, 0x01, 0x01, 0x01]

/-- Constant `SmlClient.ESCAPE_SEQUENCE`, the four bytes 1B 1B 1B 1B. -/
def ESCAPE_SEQUENCE : List Nat := [0x1b, 0x1b, 0x1b, 0x1b]

/-- Constant `SmlClient.END_MESSAGE`, the single byte 1A. -/
def END_MESSAGE : List Nat := [0x1a]

/-- Model of the pyserial method `ser.read_until(delim)`: consume bytes until the accumulated
buffer ends with `delim`, returning the consumed chunk (delimiter included)
and the unconsumed remainder of the stream.  On timeout (end of the modelled
stream) everything read so far is returned. -/
def read_until (delim : List Nat) : List Nat → List Nat × List Nat
  | [] => ([], [])
  | b :: rest =>
    if delim.isPrefixOf (b :: rest) then
      ((b :: rest).take delim.length, (b :: rest).drop delim.length)
    else
      let p := read_until delim rest
      (b :: p.1, p.2)

/-- The resync loop of `SmlClient._read_message` (`for _ in range(MAX_READ)`):
read up to `n` candidate chunks, each delimited by `ESCAPE_SEQUENCE`, and
return the first one that starts with `START_MESSAGE` together with the
remaining stream; `none` when the attempt bound is exhausted. -/
def find_start : Nat → List Nat → Option (List Nat × List Nat)
  | 0, _ => none
  | n + 1, s =>
    let p := read_until ESCAPE_SEQUENCE s
    if START_MESSAGE.isPrefixOf p.1 then some p else find_start n p.2

/-- `MAX_READ = 5` in `SmlClient._read_message`. -/
def MAX_READ : Nat := 5

/-- The first `n` candidate chunks the resync loop would read from stream `s`
(each chunk is one `read_until(ESCAPE_SEQUENCE)` result). -/
def candidate_chunks : Nat → List Nat → List (List Nat)
  | 0, _ => []
  | n + 1, s =>
    let p := read_until ESCAPE_SEQUENCE s
    p.1 :: candidate_chunks n p.2

/-- `SmlClient._read_message`, reading from the modelled stream `s`.
`Except.error` models the raised `ValueError`s, with the messages of the source. -/
def read_message (s : List Nat) : Except String (List Nat) :=
  let pe := read_until ESCAPE_SEQUENCE s
  if ESCAPE_SEQUENCE.isSuffixOf pe.1 then
    match find_start MAX_READ pe.2 with
    | some pm =>
      let t_end := pm.2.take 4
      if END_MESSAGE.isPrefixOf t_end then Except.ok pm.1
      else Except.error "END_MESSAGE not found!"
    | none => Except.error "START_MESSAGE not found!"
  else Except.error "ESCAPE_SEQUENCE not found!"

/-- Model of the Python call `int.from_bytes` with `byteorder=big` and
`signed=False`. -/
def fromBytesBE (bs : List Nat) : Nat := bs.foldl (fun acc b => acc * 256 + b) 0

/-- Model of the Python call `int.from_bytes` with `byteorder=big` and
`signed=True`: big-endian two-complement. -/
def fromBytesSignedBE (bs : List Nat) : Int :=
  if 2 ^ (8 * bs.length - 1) ≤ fromBytesBE bs then
    (fromBytesBE bs : Int) - 2 ^ (8 * bs.length)
  else (fromBytesBE bs : Int)

/-- Model of `SmlClient._get_value(msg, offset)`: `none` models the implicit Python
`None` returns.  `msg[offset]` is total in the source because it is guarded by
`len(msg) - offset >= 2`; here it is `msg.getD offset 0` under the same
guard.  The Python slice `msg[offset+1:offset+size]` is
`(msg.drop (offset+1)).take (size-1)` (empty when `size ≤ 1`, exactly as the
Python slice is). -/
def get_value (msg : List Nat) (offset : Nat) : Option Int :=
  if msg.length < offset + 2 then none
  else
    let tag := msg.getD offset 0
    if tag &&& 0xF0 = 0x50 ∨ tag &&& 0xF0 = 0x60 then
      let size := tag &&& 0x0F
      if offset + size ≤ msg.length then
        let val := (msg.drop (offset + 1)).take (size - 1)
        if tag &&& 0xF0 = 0x50 then some (fromBytesSignedBE val)
        else some ((fromBytesBE val : Int))
      else none
    else none

/-- The mutable state of an `SmlClient` instance relevant to `read`:
the configured offsets (a Python `dict`, i.e. an insertion-ordered list of
key/offset pairs with distinct keys), `_last_values`, `_last_time_updated`
and `_max_update_interval`. -/
structure SmlState where
  offsets : List (String × Nat)
  last_values : String → Int
  last_time_updated : ℚ
  max_update_interval : ℚ

/-- The per-entity loop of `SmlClient.read` (lines 114-121): iterate over the
configured offsets in order; on a `None` decode return immediately (second
component `none`), keeping the `last_values` mutations already performed; on
success accumulate `change` (compared against the value *before* the
assignment) and overwrite `last_values[entity]`. -/
def update_loop (msg : List Nat) :
    List (String × Nat) → (String → Int) → Bool → ((String → Int) × Option Bool)
  | [], lv, change => (lv, some change)
  | (entity, offset) :: rest, lv, change =>
    match get_value msg offset with
    | none => (lv, none)
    | some val =>
      update_loop msg rest (Function.update lv entity val)
        (change || decide (val ≠ lv entity))

/-- `SmlClient.read` after `_read_message` succeeded with message `msg`, at
current time `now` (both calls to `time.time()` in lines 123-124 are modelled
by the same instant `now`).  Returns the new state and the optional snapshot
(`deepcopy(self._last_values)` in the source; values are immutable here, so
the copy is the mapping itself). -/
def read (st : SmlState) (msg : List Nat) (now : ℚ) : SmlState × Option (String → Int) :=
  match update_loop msg st.offsets st.last_values false with
  | (lv, none) => ({ st with last_values := lv }, none)
  | (lv, some change) =>
    if change = true ∨ st.max_update_interval < now - st.last_time_updated then
      ({ st with last_values := lv, last_time_updated := now }, some lv)
    else ({ st with last_values := lv }, none)

/-- Big-endian encoding of `u` into exactly `n` bytes (the low `8*n` bits). -/
def natToBytesBE : Nat → Nat → List Nat
  | 0, _ => []
  | n + 1, u => natToBytesBE n (u / 256) ++ [u % 256]

/-- Big-endian two-complement encoding of the integer `v` in `n` bytes,
mirroring the claimed encoding: the `size-1` big-endian two-complement bytes of `v`. -/
def intToBytesTwosComplement (v : Int) (n : Nat) : List Nat :=
  natToBytesBE n (v % ((2 : Int) ^ (8 * n))).toNat

/-! ## Frame reader lemmas -/

lemma isPrefixOf_append_self (l t : List Nat) : l.isPrefixOf (l ++ t) = true := by
  induction l with
  | nil => simp [List.isPrefixOf]
  | cons a l ih => simp [List.isPrefixOf, ih]

/-- `read_until` on a stream whose first `ESCAPE_SEQUENCE` occurrence follows
an escape-byte-free garble `g` consumes exactly `g ++ ESCAPE_SEQUENCE`. -/
lemma read_until_escape_split (g rest : List Nat) (h : 27 ∉ g) :
    read_until ESCAPE_SEQUENCE (g ++ (ESCAPE_SEQUENCE ++ rest)) =
      (g ++ ESCAPE_SEQUENCE, rest) := by
  induction g with
  | nil =>
    simp only [List.nil_append]
    simp [read_until, ESCAPE_SEQUENCE, List.isPrefixOf]
  | cons b g ih =>
    simp only [List.mem_cons, not_or] at h
    obtain ⟨hb, hg⟩ := h
    simp only [List.cons_append]
    rw [read_until]
    have hpre : ESCAPE_SEQUENCE.isPrefixOf (b :: (g ++ (ESCAPE_SEQUENCE ++ rest))) = false := by
      simp [ESCAPE_SEQUENCE, List.isPrefixOf]
      intro hb27
      exact absurd hb27.symm (Ne.symm hb)
    rw [hpre]
    simp only [Bool.false_eq_true, if_false]
    rw [ih hg]

/-- When none of the first `n` candidate chunks starts with `START_MESSAGE`,
the resync loop exhausts its bound. -/
lemma find_start_eq_none (n : Nat) (s : List Nat)
    (h : ∀ c ∈ candidate_chunks n s, START_MESSAGE.isPrefixOf c = false) :
    find_start n s = none := by
  induction n generalizing s with
  | zero => rfl
  | succ n ih =>
    rw [find_start]
    have h1 : START_MESSAGE.isPrefixOf (read_until ESCAPE_SEQUENCE s).1 = false :=
      h _ (by rw [candidate_chunks]; exact List.mem_cons_self _ _)
    rw [h1]
    simp only [Bool.false_eq_true, if_false]
    exact ih _ (fun c hc => h c (by rw [candidate_chunks]; exact List.mem_cons_of_mem _ hc))

/-! ## Claim theorems: frame reader -/

/-- C4: the start-marker search performs at most `MAX_READ = 5` candidate
reads: whenever the first escape sequence is found but none of the first 5
candidate chunks starts with `START_MESSAGE`, `read_message` fails with the
start-marker framing error (whatever the rest of the stream holds). -/
theorem read_message_resync_bound (s : List Nat)
    (hesc : ESCAPE_SEQUENCE.isSuffixOf (read_until ESCAPE_SEQUENCE s).1 = true)
    (hcand : ∀ c ∈ candidate_chunks MAX_READ (read_until ESCAPE_SEQUENCE s).2,
      START_MESSAGE.isPrefixOf c = false) :
    read_message s = Except.error "START_MESSAGE not found!" := by
  rw [read_message]
  simp only [hesc, if_true]
  rw [find_start_eq_none MAX_READ _ hcand]

/-- C4 witness: a stream whose first five candidate segments lack the start
marker is rejected, even though a sixth, well-formed frame follows. -/
theorem read_message_resync_bound_witness :
    read_message (ESCAPE_SEQUENCE ++ [2] ++ ESCAPE_SEQUENCE ++ [3] ++ ESCAPE_SEQUENCE
        ++ [4] ++ ESCAPE_SEQUENCE ++ [5] ++ ESCAPE_SEQUENCE ++ [6] ++ ESCAPE_SEQUENCE
        ++ START_MESSAGE ++ [7] ++ ESCAPE_SEQUENCE ++ END_MESSAGE ++ [0, 0, 0])
      = Except.error "START_MESSAGE not found!" :=
  read_message_resync_bound _ (by decide) (by decide)

/-- C1 (amended): on a stream of the form
`ESCAPE ++ garbage ++ ESCAPE ++ START ++ payload ++ ESCAPE ++ END ++ rest`
(garbage and payload free of the escape byte, garbage-chunk not itself
start-marked), `read_message` succeeds and returns the whole candidate chunk
`START ++ payload ++ ESCAPE` — the start marker and the closing escape are
*included* in the returned message; only the garbage is discarded. -/
theorem read_message_framed (g p r : List Nat) (hg : 27 ∉ g) (hp : 27 ∉ p)
    (hgs : START_MESSAGE.isPrefixOf (g ++ ESCAPE_SEQUENCE) = false) :
    read_message (ESCAPE_SEQUENCE ++ g ++ ESCAPE_SEQUENCE ++ START_MESSAGE ++ p
        ++ ESCAPE_SEQUENCE ++ END_MESSAGE ++ r)
      = Except.ok (START_MESSAGE ++ p ++ ESCAPE_SEQUENCE) := by
  have hsp : 27 ∉ START_MESSAGE ++ p := by
    simp [START_MESSAGE, hp]
  have h1 : read_until ESCAPE_SEQUENCE (ESCAPE_SEQUENCE ++ g ++ ESCAPE_SEQUENCE
      ++ START_MESSAGE ++ p ++ ESCAPE_SEQUENCE ++ END_MESSAGE ++ r)
      = (ESCAPE_SEQUENCE, g ++ (ESCAPE_SEQUENCE
          ++ (START_MESSAGE ++ p ++ (ESCAPE_SEQUENCE ++ (END_MESSAGE ++ r))))) := by
    have := read_until_escape_split [] (g ++ (ESCAPE_SEQUENCE
      ++ (START_MESSAGE ++ p ++ (ESCAPE_SEQUENCE ++ (END_MESSAGE ++ r)))))
      (by simp)
    simpa [List.append_assoc] using this
  have h2 : read_until ESCAPE_SEQUENCE (g ++ (ESCAPE_SEQUENCE
      ++ (START_MESSAGE ++ p ++ (ESCAPE_SEQUENCE ++ (END_MESSAGE ++ r)))))
      = (g ++ ESCAPE_SEQUENCE, START_MESSAGE ++ p ++ (ESCAPE_SEQUENCE ++ (END_MESSAGE ++ r))) :=
    read_until_escape_split g _ hg
  have h3 : read_until ESCAPE_SEQUENCE (START_MESSAGE ++ p ++ (ESCAPE_SEQUENCE
      ++ (END_MESSAGE ++ r)))
      = (START_MESSAGE ++ p ++ ESCAPE_SEQUENCE, END_MESSAGE ++ r) := by
    have := read_until_escape_split (START_MESSAGE ++ p) (END_MESSAGE ++ r) hsp
    simpa [List.append_assoc] using this
  rw [read_message, h1]
  have hsuf : ESCAPE_SEQUENCE.isSuffixOf ESCAPE_SEQUENCE = true := by decide
  simp only [hsuf, if_true]
  show (match find_start MAX_READ _ with
    | some pm =>
      if END_MESSAGE.isPrefixOf (pm.2.take 4) then Except.ok pm.1
      else Except.error "END_MESSAGE not found!"
    | none => Except.error "START_MESSAGE not found!") = _
  rw [show MAX_READ = 4 + 1 from rfl, find_start, h2]
  simp only [hgs, Bool.false_eq_true, if_false]
  rw [show (4 : Nat) = 3 + 1 from rfl, find_start, h3]
  have hstart : START_MESSAGE.isPrefixOf (START_MESSAGE ++ p ++ ESCAPE_SEQUENCE) = true := by
    rw [List.append_assoc]
    exact isPrefixOf_append_self START_MESSAGE (p ++ ESCAPE_SEQUENCE)
  simp only [hstart, if_true]
  have hend : END_MESSAGE.isPrefixOf ((END_MESSAGE ++ r).take 4) = true := by
    simp [END_MESSAGE, List.isPrefixOf, List.take_cons]
  simp only [hend, if_true]

/-- C1 counterexample: the claim says `read_message` returns exactly the
payload; on a concrete well-formed stream with payload `[0x42]` it returns
`START ++ [0x42] ++ ESCAPE` instead, which differs from `[0x42]`. -/
theorem read_message_payload_cex :
    read_message (ESCAPE_SEQUENCE ++ [0] ++ ESCAPE_SEQUENCE ++ START_MESSAGE ++ [0x42]
        ++ ESCAPE_SEQUENCE ++ END_MESSAGE ++ [0, 0, 0])
      = Except.ok (START_MESSAGE ++ [0x42] ++ ESCAPE_SEQUENCE)
    ∧ (START_MESSAGE ++ [0x42] ++ ESCAPE_SEQUENCE : List Nat) ≠ [0x42] :=
  ⟨rfl, by decide⟩

/-- C1 witness: the amended theorem at garbage `[0]`, payload `[0x42]`,
trailing bytes `[0,0,0]`. -/
theorem read_message_framed_witness :
    read_message (ESCAPE_SEQUENCE ++ [5] ++ ESCAPE_SEQUENCE ++ START_MESSAGE ++ [9, 8]
        ++ ESCAPE_SEQUENCE ++ END_MESSAGE ++ [0, 0, 0])
      = Except.ok (START_MESSAGE ++ [9, 8] ++ ESCAPE_SEQUENCE) :=
  read_message_framed [5] [9, 8] [0, 0, 0] (by decide) (by decide) (by decide)

/-! ## Claim theorems: field decoder -/

/-- C5: `_get_value` returns `none` ("absent") whenever the buffer is shorter
than `offset+2`, or the high nibble of the tag byte is neither `0x5` nor `0x6`, or
fewer than `size` (the low nibble of the tag) bytes remain from `offset`; being a
total function into `Option Int`, it raises no exception in any of these
cases. -/
theorem get_value_absent_conditions (msg : List Nat) (offset : Nat) :
    (msg.length < offset + 2 → get_value msg offset = none)
    ∧ (¬(msg.getD offset 0 &&& 0xF0 = 0x50 ∨ msg.getD offset 0 &&& 0xF0 = 0x60) →
        get_value msg offset = none)
    ∧ (msg.length - offset < msg.getD offset 0 &&& 0x0F → get_value msg offset = none) := by
  refine ⟨fun h => ?_, fun h => ?_, fun h => ?_⟩
  · simp only [get_value, h, if_true]
  · by_cases hl : msg.length < offset + 2
    · simp only [get_value, hl, if_true]
    · simp only [get_value, hl, if_false, h]
  · by_cases hl : msg.length < offset + 2
    · simp only [get_value, hl, if_true]
    · have hsz : ¬(offset + (msg.getD offset 0 &&& 0x0F) ≤ msg.length) := by omega
      by_cases ht : msg.getD offset 0 &&& 0xF0 = 0x50 ∨ msg.getD offset 0 &&& 0xF0 = 0x60
      · simp only [get_value, hl, if_false, ht, if_true, hsz]
      · simp only [get_value, hl, if_false, ht]

/-- C5 witness: the three absent conditions at concrete inputs — a 1-byte
buffer, an unsupported tag `0x70`, and a truncated field (tag `0x55` with
only 2 bytes). -/
theorem get_value_absent_conditions_witness :
    get_value [0x52] 0 = none
    ∧ get_value [0x70, 1, 2, 3] 0 = none
    ∧ get_value [0x55, 1] 0 = none :=
  ⟨(get_value_absent_conditions [0x52] 0).1 (by decide),
   (get_value_absent_conditions [0x70, 1, 2, 3] 0).2.1 (by decide),
   (get_value_absent_conditions [0x55, 1] 0).2.2 (by decide)⟩

/-- C9: with at least 2 bytes remaining and a supported tag whose declared
size nibble is 0 or 1 (smaller than the tag byte itself), `_get_value` does
not return absent: the Python slice `msg[offset+1:offset+size]` is empty and
`int.from_bytes` of the empty bytes yields 0, so the decoded value is `some 0`. -/
theorem get_value_small_size (msg : List Nat) (offset : Nat)
    (hlen : offset + 2 ≤ msg.length)
    (htag : msg.getD offset 0 &&& 0xF0 = 0x50 ∨ msg.getD offset 0 &&& 0xF0 = 0x60)
    (hsize : msg.getD offset 0 &&& 0x0F = 0 ∨ msg.getD offset 0 &&& 0x0F = 1) :
    get_value msg offset = some 0 := by
  have hl : ¬(msg.length < offset + 2) := by omega
  have hsz : offset + (msg.getD offset 0 &&& 0x0F) ≤ msg.length := by
    rcases hsize with h | h <;> omega
  have htake : (msg.drop (offset + 1)).take ((msg.getD offset 0 &&& 0x0F) - 1) = [] := by
    rcases hsize with h | h <;> rw [h] <;> rfl
  simp only [get_value]
  rw [if_neg hl]
  rcases htag with ht | ht
  · rw [ht, if_pos (Or.inl rfl), if_pos hsz, if_pos rfl, htake]
    rfl
  · rw [ht, if_pos (Or.inr rfl), if_pos hsz, if_neg (by decide), htake]
    rfl

/-- C9 witness: tag `0x51` (signed, declared size 1) with one trailing byte
decodes to 0 rather than absent. -/
theorem get_value_small_size_witness : get_value [0x51, 0xFF] 0 = some 0 :=
  get_value_small_size [0x51, 0xFF] 0 (by decide) (by decide) (by decide)

/-! ## Encoding lemmas for the signed round-trip -/

lemma natToBytesBE_length (n u : Nat) : (natToBytesBE n u).length = n := by
  induction n generalizing u with
  | zero => rfl
  | succ n ih => simp [natToBytesBE, ih]

lemma fromBytesBE_append_singleton (bs : List Nat) (b : Nat) :
    fromBytesBE (bs ++ [b]) = fromBytesBE bs * 256 + b := by
  simp [fromBytesBE, List.foldl_append]

lemma fromBytesBE_natToBytesBE (n u : Nat) :
    fromBytesBE (natToBytesBE n u) = u % 256 ^ n := by
  induction n generalizing u with
  | zero => simp [natToBytesBE, fromBytesBE, Nat.mod_one]
  | succ n ih =>
    rw [natToBytesBE, fromBytesBE_append_singleton, ih]
    rw [pow_succ, Nat.mul_comm (256 ^ n) 256, Nat.mod_mul]
    omega

/-- Decoding inverts the two-complement encoding on every `n`-byte
representable signed integer. -/
lemma fromBytesSignedBE_intToBytesTwosComplement (n : Nat) (v : Int) (hn : 1 ≤ n)
    (hlo : -(2 ^ (8 * n - 1)) ≤ v) (hhi : v < 2 ^ (8 * n - 1)) :
    fromBytesSignedBE (intToBytesTwosComplement v n) = v := by
  have hpowN : (2 : Nat) ^ (8 * n) = 2 ^ (8 * n - 1) * 2 := by
    conv_lhs => rw [show 8 * n = (8 * n - 1) + 1 by omega]
    rw [pow_succ]
  have h256 : (256 : Nat) ^ n = 2 ^ (8 * n) := by
    rw [show (256 : Nat) = 2 ^ 8 from rfl, ← pow_mul]
  have hcastN : ((2 ^ (8 * n) : Nat) : Int) = (2 : Int) ^ (8 * n) := by push_cast; ring
  have hcastH : ((2 ^ (8 * n - 1) : Nat) : Int) = (2 : Int) ^ (8 * n - 1) := by push_cast; ring
  have hposN : (0 : Int) < (2 : Int) ^ (8 * n) := by positivity
  have hIntNH : (2 : Int) ^ (8 * n) = 2 ^ (8 * n - 1) * 2 := by
    rw [← hcastN, ← hcastH, hpowN]; push_cast; ring
  have hposH : (0 : Int) < (2 : Int) ^ (8 * n - 1) := by positivity
  have he0 : 0 ≤ v % (2 : Int) ^ (8 * n) := Int.emod_nonneg v (by omega)
  have he1 : v % (2 : Int) ^ (8 * n) < (2 : Int) ^ (8 * n) := Int.emod_lt_of_pos v hposN
  have hucast : ((v % (2 : Int) ^ (8 * n)).toNat : Int) = v % (2 : Int) ^ (8 * n) :=
    Int.toNat_of_nonneg he0
  have hval : v % (2 : Int) ^ (8 * n) = v ∨
      v % (2 : Int) ^ (8 * n) = v + (2 : Int) ^ (8 * n) := by
    rcases le_or_lt 0 v with hv | hv
    · exact Or.inl (Int.emod_eq_of_lt hv (by omega))
    · refine Or.inr ?_
      have h1 : (v + (2 : Int) ^ (8 * n) * 1) % (2 : Int) ^ (8 * n) = v % (2 : Int) ^ (8 * n) :=
        @Int.add_mul_emod_self_left v ((2 : Int) ^ (8 * n)) 1
      have h2 : (v + (2 : Int) ^ (8 * n)) % (2 : Int) ^ (8 * n) = v + (2 : Int) ^ (8 * n) :=
        Int.emod_eq_of_lt (by omega) (by omega)
      rw [mul_one] at h1
      omega
  have hulen : (natToBytesBE n (v % (2 : Int) ^ (8 * n)).toNat).length = n :=
    natToBytesBE_length n _
  have hufrom : fromBytesBE (natToBytesBE n (v % (2 : Int) ^ (8 * n)).toNat)
      = (v % (2 : Int) ^ (8 * n)).toNat := by
    rw [fromBytesBE_natToBytesBE, h256, Nat.mod_eq_of_lt (by omega)]
  rw [intToBytesTwosComplement, fromBytesSignedBE, hulen, hufrom]
  rcases hval with hval | hval
  · rw [if_neg (by omega)]
    omega
  · rw [if_pos (by omega)]
    omega

lemma getD_append_length (pre t : List Nat) (x d : Nat) :
    (pre ++ x :: t).getD pre.length d = x := by
  induction pre with
  | nil => rfl
  | cons a pre ih =>
    rw [List.cons_append, List.length_cons, List.getD_cons_succ]
    exact ih

lemma drop_append_length_succ (pre t : List Nat) (x : Nat) :
    (pre ++ x :: t).drop (pre.length + 1) = t := by
  induction pre with
  | nil => rfl
  | cons a pre ih =>
    rw [List.cons_append, List.length_cons, List.drop_succ_cons]
    exact ih

lemma tag_nibbles (size : Nat) (h2 : 2 ≤ size) (h15 : size ≤ 15) :
    (0x50 ||| size) &&& 0xF0 = 0x50 ∧ (0x50 ||| size) &&& 0x0F = size := by
  interval_cases size <;> exact ⟨rfl, rfl⟩

/-- C3: signed round-trip.  For every total field size `2 ≤ size ≤ 15`,
offset `o` and integer `v` representable in `size-1` bytes two-complement,
decoding a buffer holding tag byte `0x50 ||| size` at offset `o` followed by
the `size-1` big-endian two-complement bytes of `v` returns exactly `v`. -/
theorem get_value_signed_roundtrip (o size : Nat) (v : Int) (pre post : List Nat)
    (hpre : pre.length = o) (h2 : 2 ≤ size) (h15 : size ≤ 15)
    (hlo : -(2 ^ (8 * (size - 1) - 1)) ≤ v) (hhi : v < 2 ^ (8 * (size - 1) - 1)) :
    get_value (pre ++ (0x50 ||| size) :: (intToBytesTwosComplement v (size - 1) ++ post)) o
      = some v := by
  obtain ⟨htag50, htag0F⟩ := tag_nibbles size h2 h15
  have hlenc : (intToBytesTwosComplement v (size - 1)).length = size - 1 :=
    natToBytesBE_length _ _
  have hmsglen : (pre ++ (0x50 ||| size) ::
      (intToBytesTwosComplement v (size - 1) ++ post)).length = o + size + post.length := by
    simp [hpre, hlenc]
    omega
  have hgd : (pre ++ (0x50 ||| size) ::
      (intToBytesTwosComplement v (size - 1) ++ post)).getD o 0 = 0x50 ||| size := by
    rw [← hpre]
    exact getD_append_length pre _ _ 0
  have hdrop : (pre ++ (0x50 ||| size) ::
      (intToBytesTwosComplement v (size - 1) ++ post)).drop (o + 1)
      = intToBytesTwosComplement v (size - 1) ++ post := by
    rw [← hpre]
    exact drop_append_length_succ pre _ _
  have htake : (intToBytesTwosComplement v (size - 1) ++ post).take (size - 1)
      = intToBytesTwosComplement v (size - 1) :=
    List.take_left' hlenc
  simp only [get_value, hgd, htag50, htag0F, hdrop]
  rw [if_neg (by omega), if_pos (Or.inl trivial), if_pos (by omega), if_pos trivial, htake]
  rw [fromBytesSignedBE_intToBytesTwosComplement (size - 1) v (by omega) hlo hhi]

/-- C3 witness: size 2, `v = -1`, offset 0 — the encoded buffer `[0x52, 0xFF]`
decodes back to `-1`. -/
theorem get_value_signed_roundtrip_witness :
    get_value ([] ++ (0x50 ||| 2) :: (intToBytesTwosComplement (-1) 1 ++ [])) 0
      = some (-1) :=
  get_value_signed_roundtrip 0 2 (-1) [] [] rfl (by decide) (by decide) (by decide) (by decide)

/-! ## Meter state tracker lemmas -/

/-- If every configured entity decodes to exactly its stored value, the
per-entity loop leaves `last_values` untouched and accumulates no change. -/
lemma update_loop_const (msg : List Nat) (offs : List (String × Nat))
    (lv : String → Int) (c : Bool)
    (h : ∀ p ∈ offs, get_value msg p.2 = some (lv p.1)) :
    update_loop msg offs lv c = (lv, some c) := by
  induction offs generalizing c with
  | nil => rfl
  | cons q rest ih =>
    obtain ⟨e, o⟩ := q
    have h1 : get_value msg o = some (lv e) := h _ (List.mem_cons_self _ _)
    simp only [update_loop, h1, Function.update_eq_self, ne_eq, not_true_eq_false,
      decide_False, Bool.or_false]
    exact ih c (fun r hr => h r (List.mem_cons_of_mem _ hr))

/-- As soon as some configured entity is absent, the loop reports failure. -/
lemma update_loop_absent (msg : List Nat) (offs : List (String × Nat))
    (lv : String → Int) (c : Bool)
    (h : ∃ p ∈ offs, get_value msg p.2 = none) :
    (update_loop msg offs lv c).2 = none := by
  induction offs generalizing lv c with
  | nil =>
    obtain ⟨p, hp, _⟩ := h
    cases hp
  | cons q rest ih =>
    obtain ⟨e, o⟩ := q
    cases hq : get_value msg o with
    | none => simp only [update_loop, hq]
    | some val =>
      obtain ⟨p, hp, hnone⟩ := h
      rcases List.mem_cons.mp hp with rfl | hp'
      · rw [hq] at hnone
        cases hnone
      · simp only [update_loop, hq]
        exact ih _ _ ⟨p, hp', hnone⟩

/-- Entities not configured keep their `last_values` entry across the loop. -/
lemma update_loop_not_mem (msg : List Nat) (offs : List (String × Nat))
    (lv : String → Int) (c : Bool) (x : String) (hx : x ∉ offs.map Prod.fst) :
    (update_loop msg offs lv c).1 x = lv x := by
  induction offs generalizing lv c with
  | nil => rfl
  | cons q rest ih =>
    obtain ⟨e, o⟩ := q
    simp only [List.map_cons, List.mem_cons, not_or] at hx
    obtain ⟨hxe, hxr⟩ := hx
    cases hq : get_value msg o with
    | none => simp only [update_loop, hq]
    | some val =>
      simp only [update_loop, hq]
      rw [ih _ _ hxr]
      exact Function.update_noteq hxe _ _

/-- With pairwise-distinct keys (a Python dict) and every field decoding,
after one pass the stored value of each configured entity is its decoded value. -/
lemma update_loop_result_values (msg : List Nat) (offs : List (String × Nat))
    (lv : String → Int) (c : Bool) (hnd : (offs.map Prod.fst).Nodup)
    (hdec : ∀ p ∈ offs, (get_value msg p.2).isSome = true) :
    ∀ p ∈ offs, get_value msg p.2 = some ((update_loop msg offs lv c).1 p.1) := by
  induction offs generalizing lv c with
  | nil =>
    intro p hp
    cases hp
  | cons q rest ih =>
    obtain ⟨e, o⟩ := q
    obtain ⟨val, hval⟩ := Option.isSome_iff_exists.mp (hdec _ (List.mem_cons_self _ _))
    simp only [List.map_cons, List.nodup_cons] at hnd
    obtain ⟨hne, hnd'⟩ := hnd
    intro p hp
    rcases List.mem_cons.mp hp with rfl | hp'
    · simp only [update_loop, hval]
      rw [update_loop_not_mem _ _ _ _ _ hne, Function.update_same]
    · simp only [update_loop, hval]
      exact ih _ _ hnd' (fun r hr => hdec r (List.mem_cons_of_mem _ hr)) p hp'

/-- When every configured field decodes, the loop reports a change flag. -/
lemma update_loop_isSome (msg : List Nat) (offs : List (String × Nat))
    (lv : String → Int) (c : Bool)
    (hdec : ∀ p ∈ offs, (get_value msg p.2).isSome = true) :
    ∃ c', (update_loop msg offs lv c).2 = some c' := by
  induction offs generalizing lv c with
  | nil => exact ⟨c, rfl⟩
  | cons q rest ih =>
    obtain ⟨e, o⟩ := q
    obtain ⟨val, hval⟩ := Option.isSome_iff_exists.mp (hdec _ (List.mem_cons_self _ _))
    simp only [update_loop, hval]
    exact ih _ _ (fun r hr => hdec r (List.mem_cons_of_mem _ hr))

/-- A `read` whose loop reports "values unchanged" emits nothing when the
heartbeat interval has not elapsed. -/
lemma read_none_of_const (st : SmlState) (msg : List Nat) (now : ℚ)
    (h : update_loop msg st.offsets st.last_values false = (st.last_values, some false))
    (hc : ¬ st.max_update_interval < now - st.last_time_updated) :
    (read st msg now).2 = none := by
  have hcond : ¬(false = true ∨ st.max_update_interval < now - st.last_time_updated) := by
    rintro (hb | hb)
    · exact absurd hb (by decide)
    · exact hc hb
  rw [read, h]
  dsimp only
  rw [if_neg hcond]

/-! ## Claim theorems: meter state tracker -/

/-- C2 (amended): if the field of any configured entity is absent, `read` returns
no snapshot and `last_emit_time` is unchanged, so nothing is reported; but
`last_values` entries for entities iterated *before* the first absent one
have already been overwritten with their freshly decoded values. -/
theorem read_absent_aborts (st : SmlState) (msg : List Nat) (now : ℚ)
    (h : ∃ p ∈ st.offsets, get_value msg p.2 = none) :
    (read st msg now).2 = none
    ∧ (read st msg now).1.last_time_updated = st.last_time_updated := by
  have h2 := update_loop_absent msg st.offsets st.last_values false h
  rcases hu : update_loop msg st.offsets st.last_values false with ⟨lv, r⟩
  rw [hu] at h2
  simp only at h2
  subst h2
  rw [read, hu]
  exact ⟨rfl, rfl⟩

/-- C2 witness: entity `"a"` decodes but `"b"` is absent — no snapshot, and
the emit timestamp stays at its previous value 0. -/
theorem read_absent_aborts_witness :
    (read ⟨[("a", 0), ("b", 10)], fun _ => 0, 0, 3600⟩ [0x52, 0x05] 7).2 = none
    ∧ (read ⟨[("a", 0), ("b", 10)], fun _ => 0, 0, 3600⟩ [0x52, 0x05] 7).1.last_time_updated
        = 0 :=
  read_absent_aborts ⟨[("a", 0), ("b", 10)], fun _ => 0, 0, 3600⟩ [0x52, 0x05] 7
    ⟨("b", 10), by simp, rfl⟩

/-- C2 counterexample: same input as the witness — the update is aborted with
no snapshot, yet the tracker state is *not* unchanged: `last_values "a"`
has been overwritten from 0 to the freshly decoded 5 before the abort. -/
theorem read_absent_mutation_cex :
    (read ⟨[("a", 0), ("b", 10)], fun _ => 0, 0, 3600⟩ [0x52, 0x05] 7).2 = none
    ∧ (read ⟨[("a", 0), ("b", 10)], fun _ => 0, 0, 3600⟩ [0x52, 0x05] 7).1.last_values "a" = 5
    ∧ (⟨[("a", 0), ("b", 10)], fun _ => 0, 0, 3600⟩ : SmlState).last_values "a" = 0 :=
  ⟨rfl, rfl, rfl⟩

/-- C6: when every decoded value equals the stored one (no change) but more
than `max_update_interval` has passed since the last emit, `read` returns a
snapshot (equal to the stored values) and sets `last_time_updated` to now. -/
theorem read_heartbeat (st : SmlState) (msg : List Nat) (now : ℚ)
    (hdec : ∀ p ∈ st.offsets, get_value msg p.2 = some (st.last_values p.1))
    (ht : st.max_update_interval < now - st.last_time_updated) :
    (read st msg now).2 = some st.last_values
    ∧ (read st msg now).1.last_time_updated = now := by
  have h1 := update_loop_const msg st.offsets st.last_values false hdec
  rw [read, h1]
  dsimp only
  rw [if_pos (Or.inr ht)]
  exact ⟨rfl, rfl⟩

/-- C6 witness: a constant buffer (stored value 5 re-decoded as 5) with the
heartbeat interval 1 exceeded at `now = 2` still yields a snapshot. -/
theorem read_heartbeat_witness :
    (read ⟨[("a", 0)], fun _ => 5, 0, 1⟩ [0x52, 0x05] 2).2 = some (fun _ => 5)
    ∧ (read ⟨[("a", 0)], fun _ => 5, 0, 1⟩ [0x52, 0x05] 2).1.last_time_updated = 2 :=
  read_heartbeat ⟨[("a", 0)], fun _ => 5, 0, 1⟩ [0x52, 0x05] 2
    (by intro p hp; simp at hp; subst hp; rfl) (by norm_num)

/-- C7: with all configured fields decoding (dict keys distinct, nonnegative
heartbeat interval), a second `read` of the identical buffer with no time
elapsed yields no snapshot: the first call overwrote `last_values` with the
decoded values, so nothing differs the second time. -/
theorem read_idempotent (st : SmlState) (msg : List Nat) (now : ℚ)
    (hnd : (st.offsets.map Prod.fst).Nodup)
    (hdec : ∀ p ∈ st.offsets, (get_value msg p.2).isSome = true)
    (hmax : 0 ≤ st.max_update_interval) :
    (read (read st msg now).1 msg now).2 = none := by
  obtain ⟨c1, hc1⟩ := update_loop_isSome msg st.offsets st.last_values false hdec
  rcases hu : update_loop msg st.offsets st.last_values false with ⟨lv1, r1⟩
  rw [hu] at hc1
  simp only at hc1
  subst hc1
  have hvals : ∀ p ∈ st.offsets, get_value msg p.2 = some (lv1 p.1) := by
    have h := update_loop_result_values msg st.offsets st.last_values false hnd hdec
    rw [hu] at h
    exact h
  have hsecond : update_loop msg st.offsets lv1 false = (lv1, some false) :=
    update_loop_const msg st.offsets lv1 false hvals
  by_cases hcond : c1 = true ∨ st.max_update_interval < now - st.last_time_updated
  · have hst1 : (read st msg now).1 = { st with last_values := lv1, last_time_updated := now } := by
      rw [read, hu]
      dsimp only
      rw [if_pos hcond]
    rw [hst1]
    refine read_none_of_const _ msg now hsecond ?_
    show ¬ st.max_update_interval < now - now
    rw [sub_self]
    exact not_lt.mpr hmax
  · have hst1 : (read st msg now).1 = { st with last_values := lv1 } := by
      rw [read, hu]
      dsimp only
      rw [if_neg hcond]
    rw [hst1]
    refine read_none_of_const _ msg now hsecond ?_
    show ¬ st.max_update_interval < now - st.last_time_updated
    exact fun hb => hcond (Or.inr hb)

/-- C7 witness: two consecutive reads of `[0x52, 0x05]` at the same instant;
the second yields no snapshot. -/
theorem read_idempotent_witness :
    (read (read ⟨[("a", 0)], fun _ => 0, 0, 3600⟩ [0x52, 0x05] 0).1 [0x52, 0x05] 0).2
      = none :=
  read_idempotent ⟨[("a", 0)], fun _ => 0, 0, 3600⟩ [0x52, 0x05] 0
    (by simp) (by intro p hp; simp at hp; subst hp; rfl) (by norm_num)

/-- C10: a freshly constructed tracker (all `last_values` initialized to the
sentinel 0, `last_time_updated` the construction time `t0`) suppresses a
genuine all-zero reading arriving within `max_update_interval` of
construction: `read` returns no snapshot. -/
theorem read_zero_sentinel_startup (offsets : List (String × Nat)) (msg : List Nat)
    (t0 now maxI : ℚ)
    (hdec : ∀ p ∈ offsets, get_value msg p.2 = some 0)
    (ht : now - t0 ≤ maxI) :
    (read ⟨offsets, fun _ => 0, t0, maxI⟩ msg now).2 = none :=
  read_none_of_const ⟨offsets, fun _ => 0, t0, maxI⟩ msg now
    (update_loop_const msg offsets (fun _ => 0) false hdec) (not_lt.mpr ht)

/-- C10 witness: an all-zero reading (`[0x52, 0x00]` decodes to 0) one second
after construction, within the 3600-second interval, is not emitted. -/
theorem read_zero_sentinel_startup_witness :
    (read ⟨[("a", 0)], fun _ => 0, 0, 3600⟩ [0x52, 0x00] 1).2 = none :=
  read_zero_sentinel_startup [("a", 0)] [0x52, 0x00] 0 1 3600
    (by intro p hp; simp at hp; subst hp; rfl) (by norm_num)

end SmlToMqtt
